import Mathlib

/-!
Verification of the `analyze-codebase` repository.

This file gives a shallow embedding, in Lean, of the algorithmic core of the
repository and proves (or refutes) the frozen claims about it:

* the per-line content classifier `analyzeLineCountByCategory`
  (src/src/analyze/i18n/index.ts, second document, lines 638-713),
* the translation-key flattener `flattenKeys` and the pruning helper
  `removeKeyFromObject` (src/src/analyze/i18n/index.ts lines 27-55, 501-519),
* the usage matcher `searchKeyInContent` and the batched, cancellable
  unused-key resolver `findUnusedKeys` (same file, lines 80-177, 222-496),
* the naming-case classifier `whatCase` (src/src/utils/progress.ts, second
  document).

JavaScript strings are modelled as `String` / `List Char`; the handful of
regular expressions used by the matcher are translated, pattern by pattern,
into an executable matcher over an atom list (literals, character classes,
starred character classes, ordered alternation of literals), whose
existential-match semantics coincides with `RegExp.test`.
-/

/-- Characters treated as whitespace by `String.prototype.trim`.  The source
runs on JavaScript strings; we model the ASCII whitespace characters (space,
tab, newline, carriage return, vertical tab, form feed), which are the only
ones appearing in the analysed inputs. -/
def isWsChar (c : Char) : Bool :=
  c = ' ' || c = '\t' || c = '\n' || c = '\r' || c = Char.ofNat 11 || c = Char.ofNat 12

/-- The backtick character. -/
def backtickChar : Char := Char.ofNat 96

/-- The single-quote character. -/
def squoteChar : Char := Char.ofNat 39

/-- Does `s` start with the sequence `pat`?  Models
`String.prototype.startsWith` on code units. -/
def listStarts : List Char → List Char → Bool
  | [], _ => true
  | _ :: _, [] => false
  | p :: ps, c :: cs => p = c && listStarts ps cs

/-- Does `s` end with the sequence `pat`?  Models `String.prototype.endsWith`. -/
def endsSeq (pat s : List Char) : Bool :=
  listStarts pat.reverse s.reverse

/-- Does `s` contain the sequence `pat`?  Models `String.prototype.includes`. -/
def containsSeq (pat : List Char) : List Char → Bool
  | [] => listStarts pat []
  | c :: rest => listStarts pat (c :: rest) || containsSeq pat rest

/-- Splits a character list at every occurrence of `sep`, keeping empty
pieces.  Models `String.prototype.split` with a one-character separator:
`"".split(x) = [""]`, `"a\n".split("\n") = ["a", ""]`. -/
def splitChar (sep : Char) : List Char → List (List Char)
  | [] => [[]]
  | c :: rest =>
    if c = sep then [] :: splitChar sep rest
    else
      match splitChar sep rest with
      | s :: ss => (c :: s) :: ss
      | [] => [[c]]

/-- Models `String.prototype.trim`: removes leading and trailing whitespace. -/
def trimL (l : List Char) : List Char :=
  ((l.dropWhile isWsChar).reverse.dropWhile isWsChar).reverse

/-- Mirrors `isSingleLineComment` (i18n/index.ts second document, line 638):
the line starts with `//`. -/
def isSingleLineComment (line : List Char) : Bool :=
  listStarts ['/', '/'] line

/-- Mirrors `isBlockComment` (line 640): starts with `/*` and ends with `*/`. -/
def isBlockComment (line : List Char) : Bool :=
  listStarts ['/', '*'] line && endsSeq ['*', '/'] line

/-- Mirrors `isMixedComment` (line 643): starts with `/*` without ending in
`*/`, or starts with `*`. -/
def isMixedComment (line : List Char) : Bool :=
  (listStarts ['/', '*'] line && !endsSeq ['*', '/'] line) || listStarts ['*'] line

/-- Mirrors `isEmptyBlockComment` (line 646): starts with `/*` without ending
in `*/` (identical to the first disjunct of `isMixedComment`). -/
def isEmptyBlockComment (line : List Char) : Bool :=
  listStarts ['/', '*'] line && !endsSeq ['*', '/'] line

/-- Mirrors `isToDo` (line 653): the line contains `TODO`. -/
def isToDo (line : List Char) : Bool :=
  containsSeq ['T', 'O', 'D', 'O'] line

/-- The mutable counter record `ICodeContentType` from src/src/types.ts.  All
counters are naturals; `Source` is an integer because the final derived
assignment `Physical - Comment - Empty - ToDo` can go negative. -/
structure ICodeContentType where
  Physical : Nat
  Source : Int
  Comment : Nat
  SingleLineComment : Nat
  BlockComment : Nat
  Mixed : Nat
  EmptyBlockComment : Nat
  Empty : Nat
  ToDo : Nat
deriving Repr, DecidableEq

/-- A freshly zeroed counter record. -/
def zeroOutput : ICodeContentType :=
  ⟨0, 0, 0, 0, 0, 0, 0, 0, 0⟩

/-- The `if (isToDo(line)) output.ToDo++` step that runs at the end of every
iteration of the outer loop (line 705), on the trimmed line. -/
def todoBump (t : List Char) (o : ICodeContentType) : ICodeContentType :=
  if isToDo t then { o with ToDo := o.ToDo + 1 } else o

/-- The raw (untrimmed) lines consumed by the inner
`while (... && !lines[lineIndex]?.endsWith('*/'))` loop of the mixed branch
(lines 693-698): the longest leading run of lines not ending in `*/`. -/
def consumeToClose (ls : List (List Char)) : List (List Char) :=
  ls.takeWhile (fun raw => !endsSeq ['*', '/'] raw)

/-- What remains of the line list after the inner loop stops: the suffix
starting at the first raw line that ends in `*/` (empty if none does). -/
def remainAtClose (ls : List (List Char)) : List (List Char) :=
  ls.dropWhile (fun raw => !endsSeq ['*', '/'] raw)

/-- The body of the `while (lineIndex < lines.length)` loop of
`analyzeLineCountByCategory` (lines 667-708), written as a recursion over the
remaining line list.  The first argument is fuel; the loop advances
`lineIndex` by at least one per iteration, so `lines.length` units of fuel
(supplied by `classifyLines`) always suffice and the fuel-exhaustion branch is
never taken.

Per iteration: the current line is trimmed and `Physical` is incremented;
the trimmed line is classified by the `if`/`else if` chain (empty,
single-line comment, one-line block comment, mixed); in the mixed branch the
inner loop consumes every raw line up to but excluding the first one that
ends in `*/`, adds their number to `EmptyBlockComment` or `BlockComment`
according to `isEmptyBlockComment` of the trimmed opener, and the final
`lineIndex++` then also skips that closing line.  `isToDo` is checked on the
trimmed opener in every branch. -/
def classifyGo : Nat → List (List Char) → ICodeContentType → ICodeContentType
  | 0, _, out => out
  | _ + 1, [], out => out
  | fuel + 1, l :: rest, out =>
    let t := trimL l
    let o1 : ICodeContentType := { out with Physical := out.Physical + 1 }
    if t = [] then
      classifyGo fuel rest (todoBump t { o1 with Empty := o1.Empty + 1 })
    else if isSingleLineComment t then
      classifyGo fuel rest
        (todoBump t { o1 with SingleLineComment := o1.SingleLineComment + 1, Comment := o1.Comment + 1 })
    else if isBlockComment t then
      classifyGo fuel rest
        (todoBump t { o1 with BlockComment := o1.BlockComment + 1, Comment := o1.Comment + 1 })
    else if isMixedComment t then
      let o2 : ICodeContentType := { o1 with Mixed := o1.Mixed + 1, Comment := o1.Comment + 1 }
      let n := (consumeToClose (l :: rest)).length
      let o3 : ICodeContentType :=
        if isEmptyBlockComment t then { o2 with EmptyBlockComment := o2.EmptyBlockComment + n }
        else { o2 with BlockComment := o2.BlockComment + n }
      classifyGo fuel ((remainAtClose (l :: rest)).drop 1) (todoBump t o3)
    else
      classifyGo fuel rest (todoBump t o1)

/-- The classification loop of `analyzeLineCountByCategory`, started with
enough fuel for every line. -/
def classifyLines (lines : List (List Char)) (out : ICodeContentType) : ICodeContentType :=
  classifyGo lines.length lines out

/-- Mirrors `analyzeLineCountByCategory` (lines 657-713): split the content on
`\n`, run the classification loop, then assign the derived field
`Source = Physical - Comment - Empty - ToDo`.  File reading is external; the
function takes the file content directly. -/
def analyzeLineCountByCategory (content : String) (output : ICodeContentType) : ICodeContentType :=
  let o := classifyLines (splitChar '\n' content.toList) output
  { o with Source := (o.Physical : Int) - (o.Comment : Int) - (o.Empty : Int) - (o.ToDo : Int) }

/-- Mirrors `analyzeLineCount` (lines 631-636): the number of pieces obtained
by splitting the content on `\n`. -/
def analyzeLineCount (content : String) : Nat :=
  (splitChar '\n' content.toList).length

/-- The three-line block comment (with trailing newline) used by the claims
about the classifier. -/
def blockCommentSample : String := "/* a\n b\n c */\n"

/-- A block comment whose middle line carries a TODO marker. -/
def todoInBlockSample : String := "/*\n TODO fix\n*/"

/-- C1: the claim asserts that `Physical` always equals the number of physical
lines of the input (the split-on-line-boundaries count).  The code violates
this: the inner loop of the mixed branch advances `lineIndex` over
continuation and closing lines of a multi-line block comment without ever
incrementing `Physical`.  On `"/* a\n b\n c */\n"` the split yields 4 pieces
(and the repository's own `analyzeLineCount` reports 4), but the classifier
leaves `Physical = 2`.  FEATURES.md line 127 documents Physical as "Total
lines in files", so the code contradicts its own documentation. -/
theorem c1_physical_count_failing_input :
    (analyzeLineCountByCategory blockCommentSample zeroOutput).Physical = 2 ∧
      analyzeLineCount blockCommentSample = 4 := by
  decide

/-- C2 counterexample: on the exact content `"/* a\n b\n c */\n"` the claimed
counter values `Physical=3, Mixed=1, BlockComment=2, Comment=3` do not hold. -/
theorem c2_block_comment_counters_counterexample :
    ¬ ((analyzeLineCountByCategory blockCommentSample zeroOutput).Physical = 3 ∧
       (analyzeLineCountByCategory blockCommentSample zeroOutput).Mixed = 1 ∧
       (analyzeLineCountByCategory blockCommentSample zeroOutput).BlockComment = 2 ∧
       (analyzeLineCountByCategory blockCommentSample zeroOutput).Comment = 3) := by
  decide

/-- C2 amended: on `"/* a\n b\n c */\n"` the classifier actually produces
`Physical=2, Mixed=1, BlockComment=0, EmptyBlockComment=2, Comment=1,
Empty=1`: the opener is a mixed line (incrementing `Comment` once), the two
consumed lines are tallied as `EmptyBlockComment` because `isEmptyBlockComment`
holds of any unclosed opener (trailing content notwithstanding), the closing
line is skipped without classification, and the piece after the final newline
counts as the one empty line. -/
theorem c2_block_comment_counters_amended :
    (analyzeLineCountByCategory blockCommentSample zeroOutput).Physical = 2 ∧
      (analyzeLineCountByCategory blockCommentSample zeroOutput).Mixed = 1 ∧
      (analyzeLineCountByCategory blockCommentSample zeroOutput).BlockComment = 0 ∧
      (analyzeLineCountByCategory blockCommentSample zeroOutput).EmptyBlockComment = 2 ∧
      (analyzeLineCountByCategory blockCommentSample zeroOutput).Comment = 1 ∧
      (analyzeLineCountByCategory blockCommentSample zeroOutput).Empty = 1 := by
  decide

/-- C6 counterexample: a TODO on a continuation line of a multi-line block
comment is not counted: on `"/*\n TODO fix\n*/"` one physical line's trimmed
text contains `TODO`, yet the classifier reports `ToDo = 0`, because the
inner loop of the mixed branch skips continuation lines without running the
TODO check on them. -/
theorem c6_todo_in_block_comment_counterexample :
    (analyzeLineCountByCategory todoInBlockSample zeroOutput).ToDo = 0 ∧
      ((splitChar '\n' todoInBlockSample.toList).countP (fun l => isToDo (trimL l))) = 1 := by
  decide

/-- The trimmed lines actually visited by the outer loop of the classifier:
lines consumed by the inner block-comment loop (continuations and the closing
line of a mixed block) are skipped.  Same fuel discipline as `classifyGo`. -/
def visitedTrims : Nat → List (List Char) → List (List Char)
  | 0, _ => []
  | _ + 1, [] => []
  | fuel + 1, l :: rest =>
    let t := trimL l
    if t = [] then t :: visitedTrims fuel rest
    else if isSingleLineComment t then t :: visitedTrims fuel rest
    else if isBlockComment t then t :: visitedTrims fuel rest
    else if isMixedComment t then t :: visitedTrims fuel ((remainAtClose (l :: rest)).drop 1)
    else t :: visitedTrims fuel rest

/-- The trimmed lines visited by the outer loop, for a given line list. -/
def visitedLines (lines : List (List Char)) : List (List Char) :=
  visitedTrims lines.length lines

/-- Unfolding of the TODO bump. -/
theorem todoBump_ToDo (t : List Char) (o : ICodeContentType) :
    (todoBump t o).ToDo = o.ToDo + (if isToDo t then 1 else 0) := by
  unfold todoBump
  split <;> simp

/-- Core invariant for C6: through the classification loop, `ToDo` grows by
exactly the number of visited (outer-loop) lines whose trimmed text contains
`TODO`, whatever their comment classification. -/
theorem classifyGo_ToDo (fuel : Nat) :
    ∀ (lines : List (List Char)) (out : ICodeContentType),
      (classifyGo fuel lines out).ToDo =
        out.ToDo + (visitedTrims fuel lines).countP isToDo := by
  induction fuel with
  | zero =>
    intro lines out
    simp [classifyGo, visitedTrims]
  | succ n ih =>
    intro lines out
    cases lines with
    | nil => simp [classifyGo, visitedTrims]
    | cons l rest =>
      simp only [classifyGo, visitedTrims]
      by_cases h1 : trimL l = []
      · simp only [if_pos h1, ih, todoBump_ToDo, List.countP_cons]
        omega
      · by_cases h2 : isSingleLineComment (trimL l)
        · simp only [if_neg h1, if_pos h2, ih, todoBump_ToDo, List.countP_cons]
          omega
        · by_cases h3 : isBlockComment (trimL l)
          · simp only [if_neg h1, if_neg h2, if_pos h3, ih, todoBump_ToDo, List.countP_cons]
            omega
          · by_cases h4 : isMixedComment (trimL l)
            · simp only [if_neg h1, if_neg h2, if_neg h3, if_pos h4, ih, todoBump_ToDo,
                List.countP_cons]
              split <;> simp <;> omega
            · simp only [if_neg h1, if_neg h2, if_neg h3, if_neg h4, ih, todoBump_ToDo,
                List.countP_cons]
              omega

/-- C6 amended: after running the classifier, `ToDo` has grown by the number
of lines *visited by the outer classification loop* whose trimmed text
contains `TODO` — the check is orthogonal to (additive with) the line's
comment classification, but lines consumed inside a multi-line block comment
are never visited and therefore never TODO-checked. -/
theorem c6_todo_counts_visited_lines (content : String) (out : ICodeContentType) :
    (analyzeLineCountByCategory content out).ToDo =
      out.ToDo + (visitedLines (splitChar '\n' content.toList)).countP isToDo := by
  unfold analyzeLineCountByCategory classifyLines visitedLines
  simp [classifyGo_ToDo]

/-!
Model of the nested translation tree.  `JSON.parse` of a translation file
yields string-keyed objects whose leaves are strings or arrays; `flattenKeys`
recurses only into plain objects (`typeof value === "object" && value !==
null && !Array.isArray(value)`), treating arrays and scalars as leaves.
Fields are kept in insertion order, as JavaScript objects with non-integer
string keys enumerate them.
-/

mutual

inductive JValue : Type where
  | str (s : String)
  | arr (elems : List String)
  | obj (fields : JFields)

inductive JFields : Type where
  | nil
  | cons (key : String) (value : JValue) (rest : JFields)

end

/-- A flattened leaf entry, mirroring the `FlattenedKey` interface
(i18n/index.ts lines 18-22). -/
structure FlattenedKey where
  path : String
  value : JValue
  originalPath : List String

mutual

/-- Mirrors `flattenKeys` (i18n/index.ts lines 27-55): a non-object value at
top level has no own enumerable string-keyed entries to iterate, so the
`for...in` loop contributes nothing; an object defers to the field loop. -/
def flattenKeys (v : JValue) (pre : String := "") (orig : List String := []) : List FlattenedKey :=
  match v with
  | .obj fields => flattenFields fields pre orig
  | _ => []

/-- The `for (const key in obj)` loop of `flattenKeys`: extend the dot path
and the original path with the key, recurse into plain objects, and emit a
leaf entry otherwise. -/
def flattenFields (fs : JFields) (pre : String) (orig : List String) : List FlattenedKey :=
  match fs with
  | .nil => []
  | .cons k v rest =>
    let currentPath := if pre = "" then k else pre ++ "." ++ k
    let currentOrig := orig ++ [k]
    (match v with
     | .obj _ => flattenKeys v currentPath currentOrig
     | _ => [⟨currentPath, v, currentOrig⟩]) ++ flattenFields rest pre orig

end

/-- Field lookup, modelling `obj[currentKey]`. -/
def getField : JFields → String → Option JValue
  | .nil, _ => none
  | .cons k v rest, key => if k = key then some v else getField rest key

/-- Field removal, modelling `delete obj[currentKey]` (JavaScript objects have
at most one own property per key, so removing the first occurrence suffices). -/
def deleteField : JFields → String → JFields
  | .nil, _ => .nil
  | .cons k v rest, key => if k = key then rest else .cons k v (deleteField rest key)

/-- In-place replacement of the value stored under an existing key, modelling
the mutation of the nested object `obj[currentKey]` refers to. -/
def setField : JFields → String → JValue → JFields
  | .nil, _, _ => .nil
  | .cons k v rest, key, nv => if k = key then .cons k nv rest else .cons k v (setField rest key nv)

/-- Models `Object.keys(obj).length === 0`. -/
def isNilFields : JFields → Bool
  | .nil => true
  | .cons _ _ _ => false

/-- Mirrors `removeKeyFromObject` (i18n/index.ts lines 501-519): an empty path
is a no-op; a final segment is deleted outright; otherwise, when the key holds
an object, recurse and then delete the key if its object became empty.  (The
source's `typeof obj[currentKey] === "object"` would also recurse into an
array value; no removal path in the analysed claims traverses an array, and
array elements carry no string-keyed own properties to delete.) -/
def removeKeyFromObject (fs : JFields) (path : List String) : JFields :=
  match path with
  | [] => fs
  | [k] => deleteField fs k
  | k :: rest =>
    match getField fs k with
    | some (.obj inner) =>
      let inner' := removeKeyFromObject inner rest
      if isNilFields inner' then deleteField fs k else setField fs k (.obj inner')
    | _ => fs

/-- The tree `{"a":{"b":"x","c":"y"},"d":"z"}` from C5. -/
def treeC5 : JFields :=
  .cons "a" (.obj (.cons "b" (.str "x") (.cons "c" (.str "y") .nil)))
    (.cons "d" (.str "z") .nil)

/-- C5: flattening `{"a":{"b":"x","c":"y"},"d":"z"}` yields exactly the paths
`a.b`, `a.c`, `d` in that order; removing the leaf `a.b` keeps the parent `a`
(it still has the child `c`), and removing `a.b` then `a.c` deletes the
now-empty parent, leaving `{"d":"z"}`. -/
theorem c5_flatten_and_remove :
    (flattenKeys (.obj treeC5)).map FlattenedKey.path = ["a.b", "a.c", "d"] ∧
      removeKeyFromObject treeC5 ["a", "b"] =
        .cons "a" (.obj (.cons "c" (.str "y") .nil)) (.cons "d" (.str "z") .nil) ∧
      removeKeyFromObject (removeKeyFromObject treeC5 ["a", "b"]) ["a", "c"] =
        .cons "d" (.str "z") .nil := by
  refine ⟨rfl, ?_, ?_⟩ <;> rfl

/-- The tree `{"a":{"b":"x"},"a.b":"y"}`: sibling keys are distinct, yet two
leaves flatten to the same dot-joined path because the second key itself
contains a dot. -/
def treeDotKey : JFields :=
  .cons "a" (.obj (.cons "b" (.str "x") .nil)) (.cons "a.b" (.str "y") .nil)

/-- C4 counterexample: on `{"a":{"b":"x"},"a.b":"y"}` the flattener emits the
path `a.b` twice, so the produced `path` values are not pairwise unique. -/
theorem c4_path_uniqueness_counterexample :
    (flattenKeys (.obj treeDotKey)).map FlattenedKey.path = ["a.b", "a.b"] ∧
      ¬ ((flattenKeys (.obj treeDotKey)).map FlattenedKey.path).Nodup := by
  constructor
  · rfl
  · intro h
    rw [show (flattenKeys (.obj treeDotKey)).map FlattenedKey.path = ["a.b", "a.b"] from rfl] at h
    simp at h

mutual

/-- Leaves of a value, with their raw key sequences, in depth-first
key-insertion order.  This is the specification-side description of "one
entry per leaf" against which `flattenKeys` is compared: a non-object value
is itself a leaf. -/
def leavesOfValue : JValue → List (List String × JValue)
  | .obj fs => leavesOfFields fs
  | v => [([], v)]

/-- Leaves reachable from a field list, each key sequence extended by the
field's key. -/
def leavesOfFields : JFields → List (List String × JValue)
  | .nil => []
  | .cons k v rest => (leavesOfValue v).map (fun pv => (k :: pv.1, pv.2)) ++ leavesOfFields rest

end

/-- A key is good when it is nonempty and contains no dot.  Keys produced by
`JSON.parse` may violate this (a JSON key can be any string); goodness is the
well-formedness under which dot-joined paths are faithful. -/
def goodKey (k : String) : Bool :=
  !(k = "") && !(k.data.contains '.')

/-- The keys of a field list, in order. -/
def keysOf : JFields → List String
  | .nil => []
  | .cons k _ rest => k :: keysOf rest

mutual

/-- Well-formedness of a value: every object below it is well-formed. -/
def wfValue : JValue → Bool
  | .obj fs => wfFields fs
  | _ => true

/-- Well-formedness of a field list: keys are good, pairwise distinct among
siblings (automatic for trees coming from JavaScript objects), and all nested
objects are well-formed. -/
def wfFields : JFields → Bool
  | .nil => true
  | .cons k v rest =>
    goodKey k && !((keysOf rest).contains k) && wfValue v && wfFields rest

end

/-- Dot-join of a key sequence, mirroring how `flattenKeys` accumulates
`currentPath` from the root. -/
def joinDotS : List String → String
  | [] => ""
  | [x] => x
  | x :: xs => x ++ "." ++ joinDotS xs

/-- A good key is nonempty. -/
theorem goodKey_ne_empty {k : String} (h : goodKey k = true) : k ≠ "" := by
  simp [goodKey] at h
  exact h.1

/-- A good key contains no dot. -/
theorem goodKey_no_dot {k : String} (h : goodKey k = true) : '.' ∉ k.data := by
  simp [goodKey, List.contains] at h
  simpa using h.2

/-- Appending to a nonempty string stays nonempty. -/
theorem str_append_ne_empty (x y : String) (hx : x ≠ "") : x ++ y ≠ "" := by
  intro h
  apply hx
  have hd := congrArg String.data h
  rw [String.data_append] at hd
  have hx0 : x.data = [] := (List.append_eq_nil.mp hd).1
  exact String.ext hx0

/-- A dot-join headed by a good key is nonempty. -/
theorem joinDotS_ne_empty (x : String) (xs : List String) (hx : goodKey x = true) :
    joinDotS (x :: xs) ≠ "" := by
  cases xs with
  | nil => simpa [joinDotS] using goodKey_ne_empty hx
  | cons y ys =>
    show x ++ "." ++ joinDotS (y :: ys) ≠ ""
    exact str_append_ne_empty _ _ (str_append_ne_empty x "." (goodKey_ne_empty hx))

/-- Appending one key to a dot-joined sequence matches the incremental
`currentPath` computation of `flattenKeys`. -/
theorem joinDotS_append_single :
    ∀ (orig : List String) (k : String), (∀ s ∈ orig, goodKey s = true) →
      joinDotS (orig ++ [k]) =
        if joinDotS orig = "" then k else joinDotS orig ++ "." ++ k
  | [], k, _ => by simp [joinDotS]
  | [x], k, hg => by
    have hx : goodKey x = true := hg x (by simp)
    simp [joinDotS, goodKey_ne_empty hx]
  | x :: y :: ys, k, hg => by
    have hx : goodKey x = true := hg x (by simp)
    have hy : goodKey y = true := hg y (by simp)
    have iht := joinDotS_append_single (y :: ys) k (fun s hs => hg s (by simp [hs]))
    have hne : joinDotS (y :: ys) ≠ "" := joinDotS_ne_empty y ys hy
    have hne2 : joinDotS (x :: y :: ys) ≠ "" := joinDotS_ne_empty x (y :: ys) hx
    show joinDotS (x :: ((y :: ys) ++ [k])) = _
    have hstep : joinDotS (x :: ((y :: ys) ++ [k])) = x ++ "." ++ joinDotS ((y :: ys) ++ [k]) := by
      cases ys <;> rfl
    rw [hstep, iht, if_neg hne, if_neg hne2]
    show x ++ "." ++ (joinDotS (y :: ys) ++ "." ++ k) =
      (x ++ "." ++ joinDotS (y :: ys)) ++ "." ++ k
    apply String.ext
    simp [String.data_append, List.append_assoc]

/-- Every `flattenFields` run started from a consistent prefix produces, per
leaf in depth-first order, exactly the entry whose original path extends the
ambient path and whose dot path is the join of that original path. -/
theorem flattenFields_eq :
    ∀ (fs : JFields) (pre : String) (orig : List String),
      (∀ s ∈ orig, goodKey s = true) → wfFields fs = true → pre = joinDotS orig →
      flattenFields fs pre orig =
        (leavesOfFields fs).map (fun pv => ⟨joinDotS (orig ++ pv.1), pv.2, orig ++ pv.1⟩)
  | .nil, pre, orig, _, _, _ => by simp [flattenFields, leavesOfFields]
  | .cons k (.obj inner) rest, pre, orig, hg, hwf, hpre => by
    simp only [wfFields] at hwf
    rw [Bool.and_eq_true, Bool.and_eq_true, Bool.and_eq_true] at hwf
    obtain ⟨⟨⟨hk, _⟩, hv⟩, hrest⟩ := hwf
    have hinner : wfFields inner = true := hv
    have hg2 : ∀ s ∈ orig ++ [k], goodKey s = true := by
      intro s hs
      rcases List.mem_append.mp hs with h | h
      · exact hg s h
      · simp at h
        simpa [h] using hk
    have hcp : (if pre = "" then k else pre ++ "." ++ k) = joinDotS (orig ++ [k]) := by
      rw [hpre, joinDotS_append_single orig k hg]
    have h1 := flattenFields_eq inner (if pre = "" then k else pre ++ "." ++ k)
      (orig ++ [k]) hg2 hinner hcp
    have h2 := flattenFields_eq rest pre orig hg hrest hpre
    show flattenFields inner (if pre = "" then k else pre ++ "." ++ k) (orig ++ [k]) ++
        flattenFields rest pre orig =
      ((leavesOfFields inner).map (fun pv => (k :: pv.1, pv.2)) ++ leavesOfFields rest).map
        (fun pv => ⟨joinDotS (orig ++ pv.1), pv.2, orig ++ pv.1⟩)
    rw [h1, h2, List.map_append, List.map_map]
    congr 1
    apply List.map_congr_left
    intro pv _
    simp [Function.comp, List.append_assoc, List.singleton_append]
  | .cons k (.str s) rest, pre, orig, hg, hwf, hpre => by
    simp only [wfFields] at hwf
    rw [Bool.and_eq_true] at hwf
    obtain ⟨h123, hrest⟩ := hwf
    have hcp : (if pre = "" then k else pre ++ "." ++ k) = joinDotS (orig ++ [k]) := by
      rw [hpre, joinDotS_append_single orig k hg]
    have h2 := flattenFields_eq rest pre orig hg hrest hpre
    show ⟨if pre = "" then k else pre ++ "." ++ k, JValue.str s, orig ++ [k]⟩ ::
        flattenFields rest pre orig =
      ((k :: ([] : List String), JValue.str s) :: leavesOfFields rest).map
        (fun pv => ⟨joinDotS (orig ++ pv.1), pv.2, orig ++ pv.1⟩)
    rw [h2, hcp]
    rfl
  | .cons k (.arr a) rest, pre, orig, hg, hwf, hpre => by
    simp only [wfFields] at hwf
    rw [Bool.and_eq_true] at hwf
    obtain ⟨h123, hrest⟩ := hwf
    have hcp : (if pre = "" then k else pre ++ "." ++ k) = joinDotS (orig ++ [k]) := by
      rw [hpre, joinDotS_append_single orig k hg]
    have h2 := flattenFields_eq rest pre orig hg hrest hpre
    show ⟨if pre = "" then k else pre ++ "." ++ k, JValue.arr a, orig ++ [k]⟩ ::
        flattenFields rest pre orig =
      ((k :: ([] : List String), JValue.arr a) :: leavesOfFields rest).map
        (fun pv => ⟨joinDotS (orig ++ pv.1), pv.2, orig ++ pv.1⟩)
    rw [h2, hcp]
    rfl

/-- Every leaf's key sequence starts with one of the field keys. -/
theorem leaves_head_key :
    ∀ (fs : JFields) (pv : List String × JValue), pv ∈ leavesOfFields fs →
      ∃ k p2, pv.1 = k :: p2 ∧ k ∈ keysOf fs
  | .nil, pv, h => by simp [leavesOfFields] at h
  | .cons k v rest, pv, h => by
    simp only [leavesOfFields, List.mem_append] at h
    rcases h with h | h
    · obtain ⟨q, _, rfl⟩ := List.mem_map.mp h
      exact ⟨k, q.1, rfl, by simp [keysOf]⟩
    · obtain ⟨k2, p2, hp, hm⟩ := leaves_head_key rest pv h
      exact ⟨k2, p2, hp, by simp [keysOf, hm]⟩

/-- Keys appearing in leaf key sequences of a well-formed tree are good. -/
theorem leaves_keys_good :
    ∀ (fs : JFields), wfFields fs = true →
      ∀ pv ∈ leavesOfFields fs, ∀ s ∈ pv.1, goodKey s = true
  | .nil, _, pv, h => by simp [leavesOfFields] at h
  | .cons k (.obj inner) rest, hwf, pv, h => by
    simp only [wfFields] at hwf
    rw [Bool.and_eq_true, Bool.and_eq_true, Bool.and_eq_true] at hwf
    obtain ⟨⟨⟨hk, _⟩, hv⟩, hrest⟩ := hwf
    have hinner : wfFields inner = true := hv
    simp only [leavesOfFields, leavesOfValue, List.mem_append] at h
    rcases h with h | h
    · obtain ⟨q, hq, rfl⟩ := List.mem_map.mp h
      intro s hs
      rcases List.mem_cons.mp hs with rfl | hs
      · exact hk
      · exact leaves_keys_good inner hinner q hq s hs
    · exact leaves_keys_good rest hrest pv h
  | .cons k (.str t) rest, hwf, pv, h => by
    simp only [wfFields] at hwf
    rw [Bool.and_eq_true, Bool.and_eq_true, Bool.and_eq_true] at hwf
    obtain ⟨⟨⟨hk, _⟩, _⟩, hrest⟩ := hwf
    simp only [leavesOfFields, leavesOfValue, List.mem_append] at h
    rcases h with h | h
    · simp at h
      intro s hs
      rw [h] at hs
      simp at hs
      simpa [hs] using hk
    · exact leaves_keys_good rest hrest pv h
  | .cons k (.arr a) rest, hwf, pv, h => by
    simp only [wfFields] at hwf
    rw [Bool.and_eq_true, Bool.and_eq_true, Bool.and_eq_true] at hwf
    obtain ⟨⟨⟨hk, _⟩, _⟩, hrest⟩ := hwf
    simp only [leavesOfFields, leavesOfValue, List.mem_append] at h
    rcases h with h | h
    · simp at h
      intro s hs
      rw [h] at hs
      simp at hs
      simpa [hs] using hk
    · exact leaves_keys_good rest hrest pv h

/-- The key sequences of the leaves of a well-formed tree are pairwise
distinct. -/
theorem leaves_origs_nodup :
    ∀ (fs : JFields), wfFields fs = true → ((leavesOfFields fs).map Prod.fst).Nodup
  | .nil, _ => by simp [leavesOfFields]
  | .cons k v rest, hwf => by
    simp only [wfFields] at hwf
    rw [Bool.and_eq_true, Bool.and_eq_true, Bool.and_eq_true] at hwf
    obtain ⟨⟨⟨hk, hkmem⟩, hv⟩, hrest⟩ := hwf
    have hnotmem : k ∉ keysOf rest := by
      intro hmem
      simp [List.contains, List.elem_eq_mem, hmem] at hkmem
    simp only [leavesOfFields, List.map_append, List.map_map]
    rw [List.nodup_append]
    refine ⟨?_, leaves_origs_nodup rest hrest, ?_⟩
    · have hvn : ((leavesOfValue v).map Prod.fst).Nodup := by
        cases v with
        | obj inner => exact leaves_origs_nodup inner hv
        | str s => simp [leavesOfValue]
        | arr a => simp [leavesOfValue]
      have : ((leavesOfValue v).map (Prod.fst ∘ fun pv => (k :: pv.1, pv.2))) =
          ((leavesOfValue v).map Prod.fst).map (fun q => k :: q) := by
        simp [List.map_map, Function.comp]
      rw [show (fun pv => (k :: pv.1, pv.2)) = (fun pv : List String × JValue => (k :: pv.1, pv.2)) from rfl]
      simp only [Function.comp] at this ⊢
      rw [this]
      exact hvn.map (fun a b hab => by simpa using hab)
    · intro x hx hx2
      simp only [List.mem_map, Function.comp] at hx
      obtain ⟨q, _, hq⟩ := hx
      obtain ⟨pv2, hpv2, hx2e⟩ := List.mem_map.mp hx2
      obtain ⟨k2, p2, hsplit, hk2⟩ := leaves_head_key rest pv2 hpv2
      rw [← hx2e, hsplit] at hq
      have : k = k2 := by
        have := congrArg (fun l => l.head?) hq
        simpa using this
      exact hnotmem (this ▸ hk2)

/-- Dot-join at the character level. -/
def charJoin : List (List Char) → List Char
  | [] => []
  | [x] => x
  | x :: xs => x ++ '.' :: charJoin xs

/-- The character data of a string dot-join is the character-level dot-join. -/
theorem joinDotS_data : ∀ l : List String, (joinDotS l).data = charJoin (l.map String.data)
  | [] => rfl
  | [x] => by simp [joinDotS, charJoin]
  | x :: y :: ys => by
    have ih := joinDotS_data (y :: ys)
    have hdot : ".".data = ['.'] := rfl
    show (x ++ "." ++ joinDotS (y :: ys)).data = x.data ++ '.' :: charJoin ((y :: ys).map String.data)
    rw [String.data_append, String.data_append, hdot, ih]
    simp

/-- A dot splits a concatenation of dot-free segments unambiguously. -/
theorem dot_split_eq :
    ∀ (a1 a2 r1 r2 : List Char), '.' ∉ a1 → '.' ∉ a2 →
      a1 ++ '.' :: r1 = a2 ++ '.' :: r2 → a1 = a2 ∧ r1 = r2
  | [], [], r1, r2, _, _, h => by simpa using h
  | [], c :: a2, r1, r2, _, h2, h => by
    simp only [List.nil_append, List.cons_append, List.cons.injEq] at h
    exact absurd (by simp [← h.1]) h2
  | c :: a1, [], r1, r2, h1, _, h => by
    simp only [List.nil_append, List.cons_append, List.cons.injEq] at h
    exact absurd (by simp [h.1]) h1
  | c1 :: a1, c2 :: a2, r1, r2, h1, h2, h => by
    simp only [List.cons_append, List.cons.injEq] at h
    obtain ⟨rfl, htail⟩ := h
    have := dot_split_eq a1 a2 r1 r2 (fun hm => h1 (by simp [hm])) (fun hm => h2 (by simp [hm])) htail
    exact ⟨by simp [this.1], this.2⟩

/-- Character-level dot-joins of nonempty sequences of dot-free segments are
injective. -/
theorem charJoin_inj :
    ∀ (l1 l2 : List (List Char)), (∀ x ∈ l1, '.' ∉ x) → (∀ x ∈ l2, '.' ∉ x) →
      l1 ≠ [] → l2 ≠ [] → charJoin l1 = charJoin l2 → l1 = l2
  | [], _, _, _, hn, _, _ => absurd rfl hn
  | _ :: _, [], _, _, _, hn, _ => absurd rfl hn
  | [x], [y], _, _, _, _, h => by
    simp only [charJoin] at h
    simp [h]
  | [x], y1 :: y2 :: ys, hx, hy, _, _, h => by
    have hdot : '.' ∈ y1 ++ '.' :: charJoin (y2 :: ys) := by simp
    rw [show charJoin [x] = x from rfl, show charJoin (y1 :: y2 :: ys) = y1 ++ '.' :: charJoin (y2 :: ys) from rfl] at h
    exact absurd (h ▸ hdot) (hx x (by simp))
  | x1 :: x2 :: xs, [y], hx, hy, _, _, h => by
    have hdot : '.' ∈ x1 ++ '.' :: charJoin (x2 :: xs) := by simp
    rw [show charJoin [y] = y from rfl, show charJoin (x1 :: x2 :: xs) = x1 ++ '.' :: charJoin (x2 :: xs) from rfl] at h
    exact absurd (h ▸ hdot) (hy y (by simp))
  | x1 :: x2 :: xs, y1 :: y2 :: ys, hx, hy, _, _, h => by
    rw [show charJoin (x1 :: x2 :: xs) = x1 ++ '.' :: charJoin (x2 :: xs) from rfl,
      show charJoin (y1 :: y2 :: ys) = y1 ++ '.' :: charJoin (y2 :: ys) from rfl] at h
    obtain ⟨hhead, htail⟩ := dot_split_eq x1 y1 _ _ (hx x1 (by simp)) (hy y1 (by simp)) h
    have := charJoin_inj (x2 :: xs) (y2 :: ys)
      (fun a ha => hx a (by simp [ha]))
      (fun a ha => hy a (by simp [ha]))
      (by simp) (by simp) htail
    rw [hhead, this]

/-- String-level dot-joins of nonempty sequences of good keys are injective. -/
theorem joinDotS_inj (l1 l2 : List String)
    (h1 : ∀ s ∈ l1, goodKey s = true) (h2 : ∀ s ∈ l2, goodKey s = true)
    (n1 : l1 ≠ []) (n2 : l2 ≠ []) (h : joinDotS l1 = joinDotS l2) : l1 = l2 := by
  have hd : charJoin (l1.map String.data) = charJoin (l2.map String.data) := by
    rw [← joinDotS_data, ← joinDotS_data, h]
  have hmaps := charJoin_inj (l1.map String.data) (l2.map String.data)
    (by
      intro x hx
      obtain ⟨s, hs, rfl⟩ := List.mem_map.mp hx
      exact goodKey_no_dot (h1 s hs))
    (by
      intro x hx
      obtain ⟨s, hs, rfl⟩ := List.mem_map.mp hx
      exact goodKey_no_dot (h2 s hs))
    (by simpa using n1) (by simpa using n2) hd
  exact List.map_injective_iff.mpr (fun a b hab => String.ext hab) hmaps

/-- C4 amended: for every well-formed tree (keys nonempty, dot-free, and
distinct among siblings — the latter automatic for JavaScript objects),
`flattenKeys` produces exactly one entry per leaf (arrays counting as scalar
leaves), in depth-first key-insertion order, with `originalPath` the leaf's
key sequence and `path` its dot-join — and those dot-joined `path` values are
pairwise distinct.  Without the dot-free restriction uniqueness fails, as
`c4_path_uniqueness_counterexample` shows. -/
theorem c4_flatten_unique_leaves (fs : JFields) (hwf : wfFields fs = true) :
    flattenKeys (.obj fs) = (leavesOfFields fs).map (fun pv => ⟨joinDotS pv.1, pv.2, pv.1⟩) ∧
      ((flattenKeys (.obj fs)).map FlattenedKey.path).Nodup := by
  have hmain := flattenFields_eq fs "" [] (by simp) hwf rfl
  have hflat : flattenKeys (.obj fs) =
      (leavesOfFields fs).map (fun pv => ⟨joinDotS pv.1, pv.2, pv.1⟩) := by
    show flattenFields fs "" [] = _
    rw [hmain]
    simp
  refine ⟨hflat, ?_⟩
  rw [hflat, List.map_map]
  have hmm : (FlattenedKey.path ∘ fun pv : List String × JValue => FlattenedKey.mk (joinDotS pv.1) pv.2 pv.1) =
      (joinDotS ∘ Prod.fst) := rfl
  rw [hmm, ← List.map_map]
  apply List.Nodup.map_on
  · intro x hx y hy hxy
    obtain ⟨pvx, hpvx, rfl⟩ := List.mem_map.mp hx
    obtain ⟨pvy, hpvy, rfl⟩ := List.mem_map.mp hy
    obtain ⟨kx, px, hkx, _⟩ := leaves_head_key fs pvx hpvx
    obtain ⟨ky, py, hky, _⟩ := leaves_head_key fs pvy hpvy
    exact joinDotS_inj pvx.1 pvy.1
      (leaves_keys_good fs hwf pvx hpvx)
      (leaves_keys_good fs hwf pvy hpvy)
      (by simp [hkx]) (by simp [hky]) hxy
  · exact leaves_origs_nodup fs hwf

/-- C4 witness: the well-formedness hypothesis and the conclusion hold at the
concrete tree `{"a":{"b":"x","c":"y"},"d":"z"}`. -/
theorem c4_flatten_unique_leaves_witness :
    wfFields treeC5 = true ∧
      (flattenKeys (.obj treeC5) =
          (leavesOfFields treeC5).map (fun pv => ⟨joinDotS pv.1, pv.2, pv.1⟩) ∧
        ((flattenKeys (.obj treeC5)).map FlattenedKey.path).Nodup) :=
  ⟨by decide, c4_flatten_unique_leaves treeC5 (by decide)⟩

/-!
Executable model of the regular expressions used by the usage matcher.  Every
pattern compiled by `searchKeyInContent`/`findUnusedKeys` is a sequence of:
literal runs (the escaped key is embedded verbatim, since the escaping at
lines 86/120 makes every key character literal), single characters from a
class, greedily-starred classes, an ordered alternation of literal call
names, and an optional literal (`\.?`).  `RegExp.test` returns whether a
match exists anywhere, which for such patterns is the existential semantics
implemented here (backtracking finds a match iff one exists).
-/

/-- One atom of a compiled pattern. -/
inductive Ratom : Type where
  | lit (l : List Char)
  | one (cls : Char → Bool)
  | many (cls : Char → Bool)
  | alts (ls : List (List Char))
  | opt (l : List Char)

/-- Does the atom sequence match some prefix of `s`?  The starred class tries
every feasible consumption length (equivalently: backtracking). -/
def matchesAt : List Ratom → List Char → Bool
  | [], _ => true
  | .lit l :: rest, s => listStarts l s && matchesAt rest (s.drop l.length)
  | .one cls :: rest, s =>
    match s with
    | [] => false
    | c :: s2 => cls c && matchesAt rest s2
  | .many cls :: rest, s =>
    (List.range ((s.takeWhile cls).length + 1)).any (fun k => matchesAt rest (s.drop k))
  | .alts ls :: rest, s => ls.any (fun l => listStarts l s && matchesAt rest (s.drop l.length))
  | .opt l :: rest, s => matchesAt rest s || (listStarts l s && matchesAt rest (s.drop l.length))

/-- Does the pattern match starting at any position of `s`?  Models
`RegExp.prototype.test` for an unanchored pattern. -/
def testPat (p : List Ratom) : List Char → Bool
  | [] => matchesAt p []
  | c :: rest => matchesAt p (c :: rest) || testPat p rest

/-- The quote class `['"\x60]` used around keys. -/
def isQuoteChar (c : Char) : Bool :=
  c = squoteChar || c = '"' || c = backtickChar

/-- Class `[^\x60]`. -/
def notBacktick (c : Char) : Bool := !(c = backtickChar)

/-- Class `[^}]`. -/
def notRBrace (c : Char) : Bool := !(c = Char.ofNat 125)

/-- Class `[^)]`. -/
def notRParen (c : Char) : Bool := !(c = ')')

/-- The boundary alternation `(?:\s|;|,|\)|\]|\}|\n)` of the property-access
pattern (the `$` alternative is handled separately in `staticPat3test`). -/
def boundaryChar (c : Char) : Bool :=
  isWsChar c || c = ';' || c = ',' || c = ')' || c = ']' || c = Char.ofNat 125 || c = '\n'

/-- The recognized translation call names `t | i18n.t | $t | translate`. -/
def callNames : List (List Char) :=
  ["t".toList, "i18n.t".toList, "$t".toList, "translate".toList]

/-- The shared pattern head `(?:t|i18n\.t|\$t|translate)\s*\(\s*`. -/
def callOpen : List Ratom :=
  [.alts callNames, .many isWsChar, .lit ['('], .many isWsChar]

/-- Static pattern 1 (line 97): a call with the exact quoted key. -/
def staticPat1 (k : List Char) : List Ratom :=
  callOpen ++ [.one isQuoteChar, .lit k, .one isQuoteChar]

/-- Static pattern 2 (line 99): bracket access `[\s*'key'\s*]`. -/
def staticPat2 (k : List Char) : List Ratom :=
  [.lit ['['], .many isWsChar, .one isQuoteChar, .lit k, .one isQuoteChar,
   .many isWsChar, .lit [']']]

/-- Static pattern 3 (line 101): `\.key` followed by a boundary character or
the end of the content. -/
def staticPat3test (k c : List Char) : Bool :=
  testPat [.lit ('.' :: k), .one boundaryChar] c || endsSeq ('.' :: k) c

/-- Static pattern 4 (line 103): the exact key between quote characters
anywhere in the content (the deliberately permissive last-resort match). -/
def staticPat4 (k : List Char) : List Ratom :=
  [.one isQuoteChar, .lit k, .one isQuoteChar]

/-- The `staticPatterns.some(p => p.test(content))` check (lines 95-109). -/
def staticFound (k c : List Char) : Bool :=
  testPat (staticPat1 k) c || testPat (staticPat2 k) c || staticPat3test k c ||
    testPat (staticPat4 k) c

/-- Template-literal pattern (line 124):
a call whose backtick argument contains the prefix and then `${...}`. -/
def templatePat (p : List Char) : List Ratom :=
  callOpen ++ [.lit [backtickChar], .many notBacktick, .lit p, .many notBacktick,
    .lit ['$', Char.ofNat 123], .one notRBrace, .many notRBrace, .lit [Char.ofNat 125],
    .many notBacktick, .lit [backtickChar]]

/-- Template-literal pattern without the closing-backtick tail (line 161),
used by the ancestor scan. -/
def templateNoClosePat (p : List Char) : List Ratom :=
  callOpen ++ [.lit [backtickChar], .many notBacktick, .lit p, .many notBacktick,
    .lit ['$', Char.ofNat 123], .one notRBrace, .many notRBrace, .lit [Char.ofNat 125]]

/-- Concatenation pattern (line 130): `call('prefix.' + ...)`. -/
def concatPat1 (p : List Char) : List Ratom :=
  callOpen ++ [.one isQuoteChar, .lit p, .opt ['.'], .one isQuoteChar,
    .many isWsChar, .lit ['+']]

/-- Reverse concatenation pattern (line 136): `call(... + '.prefix')`. -/
def concatPat2 (p : List Char) : List Ratom :=
  [.alts callNames, .many isWsChar, .lit ['('], .many notRParen, .lit ['+'],
    .many isWsChar, .one isQuoteChar, .opt ['.'], .lit p, .one isQuoteChar]

/-- The dot-separated prefixes `keyParts.slice(0, i+1).join('.')` for
`i = 0 .. parts.length-1` (line 118-119), full key included. -/
def dotPrefixes (k : List Char) : List (List Char) :=
  (List.range (splitChar '.' k).length).map (fun i => charJoin ((splitChar '.' k).take (i + 1)))

/-- The dot-separated proper ancestors `currentKeyParts.slice(0, i).join('.')`
for `i = 1 .. parts.length-1` (lines 156-157). -/
def properDotAncestors (k : List Char) : List (List Char) :=
  (List.range ((splitChar '.' k).length - 1)).map (fun i => charJoin ((splitChar '.' k).take (i + 1)))

/-- The first dynamic scan of `searchKeyInContent` (lines 118-150), also the
pre-compiled per-key dynamic pattern list of `findUnusedKeys` (lines
326-346): for each prefix of the key, a template-literal, a concatenation, or
a reverse-concatenation call match. -/
def dynSelf (k c : List Char) : Bool :=
  (dotPrefixes k).any (fun p =>
    testPat (templatePat p) c || testPat (concatPat1 p) c || testPat (concatPat2 p) c)

/-- The second dynamic scan of `searchKeyInContent` (lines 152-174): for each
proper ancestor of the key, an unterminated template-literal or a
concatenation call match. -/
def dynParent (k c : List Char) : Bool :=
  (properDotAncestors k).any (fun p =>
    testPat (templateNoClosePat p) c || testPat (concatPat1 p) c)

/-- The result record of `searchKeyInContent`. -/
structure SearchResult where
  found : Bool
  isDynamic : Bool
deriving Repr, DecidableEq

/-- Mirrors `searchKeyInContent` (i18n/index.ts lines 80-177): static
patterns first (returning a non-dynamic hit), then the dynamic prefix scan,
then the ancestor scan.  The source's third parameter `allKeys` is never read
by the function body and is omitted. -/
def searchKeyInContent (content key : String) : SearchResult :=
  let c := content.toList
  let k := key.toList
  if staticFound k c then ⟨true, false⟩
  else if dynSelf k c then ⟨true, true⟩
  else if dynParent k c then ⟨true, true⟩
  else ⟨false, false⟩

/-- A literal run matches its own append-extension. -/
theorem listStarts_append_self : ∀ (l x : List Char), listStarts l (l ++ x) = true
  | [], _ => rfl
  | c :: cs, x => by simp [listStarts, listStarts_append_self cs x]

/-- Characterization of a literal-run match. -/
theorem listStarts_iff : ∀ (p s : List Char), listStarts p s = true ↔ ∃ t, s = p ++ t
  | [], s => by simp [listStarts]
  | c :: cs, [] => by simp [listStarts]
  | c :: cs, d :: ds => by
    rw [show listStarts (c :: cs) (d :: ds) = (decide (c = d) && listStarts cs ds) from rfl]
    rw [Bool.and_eq_true, decide_eq_true_eq, listStarts_iff cs ds]
    constructor
    · rintro ⟨rfl, t, rfl⟩
      exact ⟨t, rfl⟩
    · rintro ⟨t, ht⟩
      rw [List.cons_append] at ht
      injection ht with hth htt
      exact ⟨hth.symm, t, htt⟩

/-- If the content contains an occurrence of `pat` and every string starting
with `pat` satisfies the matcher, then the unanchored test succeeds. -/
theorem testPat_of_containsSeq {P : List Ratom} {pat c : List Char}
    (h : containsSeq pat c = true)
    (himp : ∀ s, listStarts pat s = true → matchesAt P s = true) :
    testPat P c = true := by
  induction c with
  | nil =>
    simp only [containsSeq] at h
    simpa [testPat] using himp [] h
  | cons d ds ih =>
    simp only [containsSeq, Bool.or_eq_true] at h
    simp only [testPat, Bool.or_eq_true]
    rcases h with h | h
    · exact Or.inl (himp _ h)
    · exact Or.inr (ih h)

/-- C7: if the content contains the exact key enclosed on both sides in the
same quote character (single quote, double quote, or backtick), the
last-resort static pattern fires and `searchKeyInContent` reports the key as
found and not dynamic. -/
theorem c7_quoted_key_is_static_hit (key content : String) (q : Char)
    (hq : isQuoteChar q = true)
    (hocc : containsSeq (q :: (key.toList ++ [q])) content.toList = true) :
    searchKeyInContent content key = ⟨true, false⟩ := by
  have h4 : testPat (staticPat4 key.toList) content.toList = true := by
    apply testPat_of_containsSeq hocc
    intro s hs
    obtain ⟨t, rfl⟩ := (listStarts_iff _ _).mp hs
    show matchesAt (staticPat4 key.toList) (q :: ((key.toList ++ [q]) ++ t)) = true
    rw [List.append_assoc]
    show (isQuoteChar q &&
      matchesAt [.lit key.toList, .one isQuoteChar] (key.toList ++ ([q] ++ t))) = true
    rw [hq, Bool.true_and]
    show (listStarts key.toList (key.toList ++ ([q] ++ t)) &&
      matchesAt [.one isQuoteChar] ((key.toList ++ ([q] ++ t)).drop key.toList.length)) = true
    rw [listStarts_append_self, Bool.true_and, List.drop_left]
    show (isQuoteChar q && matchesAt [] t) = true
    rw [hq]
    rfl
  have h4d : testPat (staticPat4 key.data) content.data = true := h4
  have hsf : staticFound key.data content.data = true := by
    simp only [staticFound, Bool.or_eq_true]
    exact Or.inr h4d
  simp [searchKeyInContent, hsf]

/-- C7 witness: the hypotheses and conclusion at the concrete key `a.b` and
content `x 'a.b' y`. -/
theorem c7_quoted_key_is_static_hit_witness :
    searchKeyInContent "x 'a.b' y" "a.b" = ⟨true, false⟩ :=
  c7_quoted_key_is_static_hit "a.b" "x 'a.b' y" squoteChar (by decide) (by decide)

/-!
Model of the batched, cancellable unused-key resolver `findUnusedKeys`
(i18n/index.ts lines 222-496).  I/O and presentation (spinners, progress
bars, console output) are omitted; reading the translation file and parsing
it are modelled by passing the parsed tree directly, and per-file reads by a
function `String → Option String` (`none` is a rejected read).  The
cancellation token is a process-wide boolean set at most once and never
reset; the runs analysed here have it either set before the loop starts or
never set, so it is modelled as a constant `cancelled : Bool` — under which
the mid-file cancellation checkpoints of the source (lines 352, 364, 371)
coincide with the check at file start.  Promise.allSettled over a batch is
modelled as left-to-right execution: after its single awaited read, each
file's key loop runs atomically, so batch execution is sequential in
read-completion order and the model fixes one such order.  The pre-compiled
per-key regexes (lines 309-347) are reused across files with the `g` flag,
but a pattern is retested only while its key is unused and a successful test
marks the key used, so a pattern never runs after a successful (lastIndex
advancing) test and the stateless model is faithful.
-/

/-- The resolver's shared mutable accumulators: `usedKeys` and `dynamicKeys`
model insertion-ordered `Set<string>`, `keyUsageMap` the
`Map<string, string[]>`, plus the `processedFiles` and `totalKeyChecks`
counters. -/
structure ScanState where
  usedKeys : List String
  dynamicKeys : List String
  keyUsageMap : List (String × List String)
  processedFiles : Nat
  totalKeyChecks : Nat

/-- The accumulators at scan start. -/
def initScanState : ScanState := ⟨[], [], [], 0, 0⟩

/-- `Set.prototype.add`: append if absent. -/
def addToSet (l : List String) (x : String) : List String :=
  if l.contains x then l else l ++ [x]

/-- `keyUsageMap.get(key)!.push(filePath)` preceded by
`if (!keyUsageMap.has(key)) keyUsageMap.set(key, [])`. -/
def mapAppend : List (String × List String) → String → String → List (String × List String)
  | [], k, f => [(k, [f])]
  | (k2, fs) :: rest, k, f =>
    if k2 = k then (k2, fs ++ [f]) :: rest else (k2, fs) :: mapAppend rest k f

/-- Mirrors `isParentKey` (lines 61-65): the child starts with the parent and
either the strings are equal (`childKey.length === parentKey.length`) or the
character at the parent's length is a dot (`childKey[parentKey.length] ===
'.'`): given the common-start, that character is the head of the rest. -/
def isParentKeyS (p c : String) : Bool :=
  listStarts p.data c.data &&
    (match c.data.drop p.data.length with
     | [] => true
     | ch :: _ => ch = '.')

/-- One step of the child-propagation loop (lines 398-403): a key that is a
structural descendant of a dynamically used key is marked used and dynamic. -/
def markChild (p : String) (s : ScanState) (other : FlattenedKey) : ScanState :=
  if isParentKeyS p other.path then
    { s with usedKeys := addToSet s.usedKeys other.path,
             dynamicKeys := addToSet s.dynamicKeys other.path }
  else s

/-- The per-key body of `processFile`'s key loop (lines 377-410): count the
check; on a static pattern hit mark the key used and record the file; on a
dynamic pattern hit mark the key used and dynamic, propagate to all
structural descendants, and record the file; otherwise leave the state. -/
def checkKey (allKeys : List FlattenedKey) (content filePath : String)
    (st : ScanState) (keyData : FlattenedKey) : ScanState :=
  let st1 : ScanState := { st with totalKeyChecks := st.totalKeyChecks + 1 }
  if staticFound keyData.path.data content.data then
    let st2 : ScanState := { st1 with usedKeys := addToSet st1.usedKeys keyData.path }
    { st2 with keyUsageMap := mapAppend st2.keyUsageMap keyData.path filePath }
  else if dynSelf keyData.path.data content.data then
    let st2 : ScanState := { st1 with
      usedKeys := addToSet st1.usedKeys keyData.path,
      dynamicKeys := addToSet st1.dynamicKeys keyData.path }
    let st3 : ScanState := allKeys.foldl (markChild keyData.path) st2
    { st3 with keyUsageMap := mapAppend st3.keyUsageMap keyData.path filePath }
  else st1

/-- The non-cancelled body of `processFile` (lines 356-424): a failed read is
swallowed by the catch (contributing nothing), the key loop checks every
not-yet-used key in order (the 100-key batching of line 369 only interleaves
cancellation checkpoints, which are dead when the signal is never set), and
`processedFiles` is incremented either way. -/
def stepFile (readFile : String → Option String) (allKeys : List FlattenedKey)
    (st : ScanState) (filePath : String) : ScanState :=
  match readFile filePath with
  | none => { st with processedFiles := st.processedFiles + 1 }
  | some content =>
    let keysToCheck := allKeys.filter (fun k => !(st.usedKeys.contains k.path))
    let st2 := keysToCheck.foldl (checkKey allKeys content filePath) st
    { st2 with processedFiles := st2.processedFiles + 1 }

/-- The distinguished cancellation message (lines 353, 414, 439, 456, 467;
utils/cancellation line 110). -/
def cancelMsg : String := "Operation cancelled by user"

/-- `processFile` (lines 350-425): reject with the distinguished cancellation
error when the signal is set, otherwise run the file step. -/
def processFile (cancelled : Bool) (readFile : String → Option String)
    (allKeys : List FlattenedKey) (st : ScanState) (filePath : String) :
    Except String ScanState :=
  if cancelled then .error cancelMsg
  else .ok (stepFile readFile allKeys st filePath)

/-- `Promise.allSettled(batch.map(...))` (lines 443-450): every file of the
batch runs (a rejection does not stop the others); the returned flag records
whether any rejection carried the cancellation message — with a constant
signal the only possible rejection. -/
def settleBatch (cancelled : Bool) (readFile : String → Option String)
    (allKeys : List FlattenedKey) : ScanState → List String → ScanState × Bool
  | st, [] => (st, false)
  | st, f :: rest =>
    match (if cancelled then Except.error cancelMsg
           else processFile cancelled readFile allKeys st f) with
    | .ok st2 => settleBatch cancelled readFile allKeys st2 rest
    | .error _ =>
      let r := settleBatch cancelled readFile allKeys st rest
      (r.1, true)

/-- The batch loop (lines 434-463): before each batch the signal is checked
and the run aborts with the cancellation message; after each batch any
cancellation rejection aborts likewise.  Returns the final accumulators and
the error message, if any. -/
def runBatches (cancelled : Bool) (readFile : String → Option String)
    (allKeys : List FlattenedKey) : ScanState → List (List String) → ScanState × Option String
  | st, [] => (st, none)
  | st, b :: bs =>
    if cancelled then (st, some cancelMsg)
    else
      let r := settleBatch cancelled readFile allKeys st b
      if r.2 || cancelled then (r.1, some cancelMsg)
      else runBatches cancelled readFile allKeys r.1 bs

/-- The corpus-size-dependent default width (line 297). -/
def defaultConcurrency (fileCount : Nat) : Nat :=
  if fileCount > 500 then 30 else if fileCount > 100 then 25 else 20

/-- `providedConcurrency || defaultConcurrency` (line 298): `undefined` and
`0` are falsy, so the effective width is always at least 20. -/
def effectiveConcurrency (provided : Option Nat) (fileCount : Nat) : Nat :=
  match provided with
  | some k => if k = 0 then defaultConcurrency fileCount else k
  | none => defaultConcurrency fileCount

/-- The slicing loop `for (i = 0; i < files.length; i += maxConcurrency)`
(lines 428-431), with fuel bounded by the list length (each slice takes at
least its head, so the fuel never runs out for the widths that occur; the
source itself would not terminate on width 0, which `effectiveConcurrency`
never produces). -/
def toBatchesGo : Nat → Nat → List String → List (List String)
  | 0, _, _ => []
  | _ + 1, _, [] => []
  | fuel + 1, n, f :: rest => (f :: rest.take (n - 1)) :: toBatchesGo fuel n (rest.drop (n - 1))

/-- Partition the file list into consecutive batches of width `n`. -/
def toBatches (n : Nat) (files : List String) : List (List String) :=
  toBatchesGo files.length n files

/-- Mirrors `findUnusedKeys` (lines 222-496) after the translation file has
been read and parsed: flatten the tree, batch the files, run the batch loop,
re-raise cancellation (`throwIfCancelled`, line 472), and finally return the
keys never marked used (line 493).  The outcome pairs the `Except`
result with the final accumulators (which the source would simply abandon on
a throw). -/
def findUnusedKeys (cancelled : Bool) (provided : Option Nat)
    (readFile : String → Option String) (i18n : JFields) (files : List String) :
    Except String (List FlattenedKey) × ScanState :=
  match runBatches cancelled readFile (flattenKeys (.obj i18n)) initScanState
    (toBatches (effectiveConcurrency provided files.length) files) with
  | (stF, some e) => (Except.error e, stF)
  | (stF, none) =>
    if cancelled then (Except.error cancelMsg, stF)
    else (Except.ok ((flattenKeys (.obj i18n)).filter
        (fun k => !(stF.usedKeys.contains k.path))), stF)

/-- C8: with the cancellation signal set before the first batch, the resolver
ends in the distinguished cancellation outcome — the `Except.error` carrying
exactly the message `"Operation cancelled by user"`, distinct from every
normal `Except.ok` result and from any other error — and the accumulators are
still pristine: zero files processed and no usage recorded. -/
theorem c8_cancelled_before_first_batch (provided : Option Nat)
    (readFile : String → Option String) (i18n : JFields) (files : List String) :
    (findUnusedKeys true provided readFile i18n files).1 = Except.error cancelMsg ∧
      (findUnusedKeys true provided readFile i18n files).2 = initScanState := by
  unfold findUnusedKeys
  cases hbs : toBatches (effectiveConcurrency provided files.length) files with
  | nil => simp [hbs, runBatches]
  | cons b bs => simp [hbs, runBatches]

/-- Agreement of two accumulator states on everything except the two pure
counters (`processedFiles`, `totalKeyChecks`): same used keys, same dynamic
keys, same usage map. -/
def sameSets (s1 s2 : ScanState) : Prop :=
  s1.usedKeys = s2.usedKeys ∧ s1.dynamicKeys = s2.dynamicKeys ∧ s1.keyUsageMap = s2.keyUsageMap

/-- Reflexivity of set-agreement. -/
theorem sameSets_refl (s : ScanState) : sameSets s s := ⟨rfl, rfl, rfl⟩

/-- Transitivity of set-agreement. -/
theorem sameSets_trans {s1 s2 s3 : ScanState} (h : sameSets s1 s2) (h2 : sameSets s2 s3) :
    sameSets s1 s3 :=
  ⟨h.1.trans h2.1, h.2.1.trans h2.2.1, h.2.2.trans h2.2.2⟩

/-- `markChild` only reads and writes the sets. -/
theorem markChild_sameSets (p : String) (o : FlattenedKey) (s1 s2 : ScanState)
    (h : sameSets s1 s2) : sameSets (markChild p s1 o) (markChild p s2 o) := by
  obtain ⟨h1, h2, h3⟩ := h
  unfold markChild
  by_cases hc : isParentKeyS p o.path = true
  · rw [if_pos hc, if_pos hc]
    exact ⟨by simp [h1], by simp [h2], h3⟩
  · rw [if_neg hc, if_neg hc]
    exact ⟨h1, h2, h3⟩

/-- The propagation fold only reads and writes the sets. -/
theorem foldl_markChild_sameSets (p : String) :
    ∀ (ks : List FlattenedKey) (s1 s2 : ScanState), sameSets s1 s2 →
      sameSets (ks.foldl (markChild p) s1) (ks.foldl (markChild p) s2)
  | [], _, _, h => h
  | o :: ks, s1, s2, h =>
    foldl_markChild_sameSets p ks (markChild p s1 o) (markChild p s2 o)
      (markChild_sameSets p o s1 s2 h)

/-- `checkKey` only reads and writes the sets (its conditions depend on the
key and the content alone). -/
theorem checkKey_sameSets (aK : List FlattenedKey) (c f : String) (k : FlattenedKey)
    (s1 s2 : ScanState) (h : sameSets s1 s2) :
    sameSets (checkKey aK c f s1 k) (checkKey aK c f s2 k) := by
  obtain ⟨h1, h2, h3⟩ := h
  unfold checkKey
  by_cases hs : staticFound k.path.data c.data = true
  · rw [if_pos hs, if_pos hs]
    exact ⟨by simp [h1], by simp [h2], by simp [h3, h1]⟩
  · rw [if_neg hs, if_neg hs]
    by_cases hd : dynSelf k.path.data c.data = true
    · rw [if_pos hd, if_pos hd]
      have hf := foldl_markChild_sameSets k.path aK
        ⟨addToSet s1.usedKeys k.path, addToSet s1.dynamicKeys k.path, s1.keyUsageMap,
          s1.processedFiles, s1.totalKeyChecks + 1⟩
        ⟨addToSet s2.usedKeys k.path, addToSet s2.dynamicKeys k.path, s2.keyUsageMap,
          s2.processedFiles, s2.totalKeyChecks + 1⟩
        ⟨by simp [h1], by simp [h2], h3⟩
      exact ⟨hf.1, hf.2.1, by simp [hf.2.2, hf.1]⟩
    · rw [if_neg hd, if_neg hd]
      exact ⟨h1, h2, h3⟩

/-- The key-loop fold only reads and writes the sets. -/
theorem foldl_checkKey_sameSets (aK : List FlattenedKey) (c f : String) :
    ∀ (ks : List FlattenedKey) (s1 s2 : ScanState), sameSets s1 s2 →
      sameSets (ks.foldl (checkKey aK c f) s1) (ks.foldl (checkKey aK c f) s2)
  | [], _, _, h => h
  | k :: ks, s1, s2, h =>
    foldl_checkKey_sameSets aK c f ks (checkKey aK c f s1 k) (checkKey aK c f s2 k)
      (checkKey_sameSets aK c f k s1 s2 h)

/-- A file step started from set-agreeing states yields set-agreeing states. -/
theorem stepFile_sameSets (rd : String → Option String) (aK : List FlattenedKey)
    (f : String) (s1 s2 : ScanState) (h : sameSets s1 s2) :
    sameSets (stepFile rd aK s1 f) (stepFile rd aK s2 f) := by
  obtain ⟨h1, h2, h3⟩ := h
  unfold stepFile
  cases hr : rd f with
  | none => exact ⟨by simp [h1], by simp [h2], by simp [h3]⟩
  | some content =>
    simp only [h1]
    have hfold := foldl_checkKey_sameSets aK content f
      (aK.filter (fun k => !(s2.usedKeys.contains k.path))) s1 s2 ⟨h1, h2, h3⟩
    exact ⟨hfold.1, hfold.2.1, hfold.2.2⟩

/-- The file fold only reads and writes the sets. -/
theorem foldl_stepFile_sameSets (rd : String → Option String) (aK : List FlattenedKey) :
    ∀ (files : List String) (s1 s2 : ScanState), sameSets s1 s2 →
      sameSets (files.foldl (stepFile rd aK) s1) (files.foldl (stepFile rd aK) s2)
  | [], _, _, h => h
  | f :: fs, s1, s2, h =>
    foldl_stepFile_sameSets rd aK fs (stepFile rd aK s1 f) (stepFile rd aK s2 f)
      (stepFile_sameSets rd aK f s1 s2 h)

/-- A failed read leaves the sets untouched: the file contributes nothing. -/
theorem stepFile_none_sameSets (rd : String → Option String) (aK : List FlattenedKey)
    (st : ScanState) (f : String) (hr : rd f = none) :
    sameSets (stepFile rd aK st f) st := by
  unfold stepFile
  rw [hr]
  exact ⟨rfl, rfl, rfl⟩

/-- Unreadable files can be dropped from the fold without changing the sets. -/
theorem foldl_stepFile_filter (rd : String → Option String) (aK : List FlattenedKey) :
    ∀ (files : List String) (st : ScanState),
      sameSets (files.foldl (stepFile rd aK) st)
        ((files.filter (fun f => (rd f).isSome)).foldl (stepFile rd aK) st)
  | [], st => sameSets_refl st
  | f :: fs, st => by
    cases hr : rd f with
    | none =>
      simp only [List.foldl_cons, List.filter_cons, hr, Option.isSome_none, Bool.false_eq_true,
        if_false]
      have hrec := foldl_stepFile_filter rd aK fs (stepFile rd aK st f)
      have hcongr := foldl_stepFile_sameSets rd aK (fs.filter (fun f => (rd f).isSome))
        (stepFile rd aK st f) st (stepFile_none_sameSets rd aK st f hr)
      exact sameSets_trans hrec hcongr
    | some content =>
      simp only [List.foldl_cons, List.filter_cons, hr, Option.isSome_some, if_true]
      exact foldl_stepFile_filter rd aK fs (stepFile rd aK st f)

/-- `markChild` does not touch `processedFiles`. -/
theorem markChild_processedFiles (p : String) (s : ScanState) (o : FlattenedKey) :
    (markChild p s o).processedFiles = s.processedFiles := by
  unfold markChild
  split <;> rfl

/-- Neither does the propagation fold. -/
theorem foldl_markChild_processedFiles (p : String) :
    ∀ (ks : List FlattenedKey) (s : ScanState),
      (ks.foldl (markChild p) s).processedFiles = s.processedFiles
  | [], _ => rfl
  | o :: ks, s => by
    rw [List.foldl_cons, foldl_markChild_processedFiles p ks, markChild_processedFiles]

/-- `checkKey` does not touch `processedFiles`. -/
theorem checkKey_processedFiles (aK : List FlattenedKey) (c f : String) (s : ScanState)
    (k : FlattenedKey) : (checkKey aK c f s k).processedFiles = s.processedFiles := by
  unfold checkKey
  by_cases hs : staticFound k.path.data c.data = true
  · rw [if_pos hs]
  · rw [if_neg hs]
    by_cases hd : dynSelf k.path.data c.data = true
    · rw [if_pos hd]
      show (aK.foldl (markChild k.path) _).processedFiles = s.processedFiles
      rw [foldl_markChild_processedFiles]
    · rw [if_neg hd]

/-- Neither does the key-loop fold. -/
theorem foldl_checkKey_processedFiles (aK : List FlattenedKey) (c f : String) :
    ∀ (ks : List FlattenedKey) (s : ScanState),
      (ks.foldl (checkKey aK c f) s).processedFiles = s.processedFiles
  | [], _ => rfl
  | k :: ks, s => by
    rw [List.foldl_cons, foldl_checkKey_processedFiles aK c f ks, checkKey_processedFiles]

/-- Every file step — readable or not — increments `processedFiles` exactly
once. -/
theorem stepFile_processedFiles (rd : String → Option String) (aK : List FlattenedKey)
    (s : ScanState) (f : String) :
    (stepFile rd aK s f).processedFiles = s.processedFiles + 1 := by
  unfold stepFile
  cases hr : rd f with
  | none => rfl
  | some content =>
    show (_ : ScanState).processedFiles + 1 = s.processedFiles + 1
    rw [foldl_checkKey_processedFiles]

/-- The file fold processes every file exactly once. -/
theorem foldl_stepFile_processedFiles (rd : String → Option String) (aK : List FlattenedKey) :
    ∀ (files : List String) (s : ScanState),
      (files.foldl (stepFile rd aK) s).processedFiles = s.processedFiles + files.length
  | [], _ => rfl
  | f :: fs, s => by
    rw [List.foldl_cons, foldl_stepFile_processedFiles rd aK fs, stepFile_processedFiles]
    simp [List.length_cons]
    omega

/-- With the signal never set, a batch settles to the plain left fold of file
steps and reports no cancellation. -/
theorem settleBatch_false (rd : String → Option String) (aK : List FlattenedKey) :
    ∀ (b : List String) (st : ScanState),
      settleBatch false rd aK st b = (b.foldl (stepFile rd aK) st, false)
  | [], _ => rfl
  | f :: fs, st => settleBatch_false rd aK fs (stepFile rd aK st f)

/-- With the signal never set, the batch loop is the fold over the
concatenation of the batches and reports no error. -/
theorem runBatches_false (rd : String → Option String) (aK : List FlattenedKey) :
    ∀ (bs : List (List String)) (st : ScanState),
      runBatches false rd aK st bs = (bs.flatten.foldl (stepFile rd aK) st, none)
  | [], _ => rfl
  | b :: bs, st => by
    show (let r := settleBatch false rd aK st b
          if r.2 || false then (r.1, some cancelMsg) else runBatches false rd aK r.1 bs) = _
    rw [settleBatch_false rd aK b st]
    show runBatches false rd aK (b.foldl (stepFile rd aK) st) bs = _
    rw [runBatches_false rd aK bs, List.flatten_cons, List.foldl_append]

/-- Given enough fuel, the slicing loop partitions the list. -/
theorem toBatchesGo_flatten :
    ∀ (fuel n : Nat) (l : List String), l.length ≤ fuel → (toBatchesGo fuel n l).flatten = l
  | 0, n, l, h => by
    have hl : l = [] := List.eq_nil_of_length_eq_zero (Nat.le_zero.mp h)
    simp [hl, toBatchesGo]
  | _ + 1, _, [], _ => rfl
  | fuel + 1, n, f :: rest, h => by
    have hlen : (rest.drop (n - 1)).length ≤ fuel := by
      rw [List.length_drop]
      simp only [List.length_cons] at h
      omega
    show (f :: rest.take (n - 1)) ++ (toBatchesGo fuel n (rest.drop (n - 1))).flatten = f :: rest
    rw [toBatchesGo_flatten fuel n _ hlen]
    simp [List.take_append_drop]

/-- The batch partition of the file list concatenates back to the file list. -/
theorem toBatches_flatten (n : Nat) (files : List String) :
    (toBatches n files).flatten = files :=
  toBatchesGo_flatten files.length n files (Nat.le_refl _)

/-- Normal form of a never-cancelled run: a plain fold over the files and the
`Except.ok` filter of never-used keys. -/
theorem findUnusedKeys_false (provided : Option Nat) (rd : String → Option String)
    (i18n : JFields) (files : List String) :
    findUnusedKeys false provided rd i18n files =
      (Except.ok ((flattenKeys (.obj i18n)).filter (fun k =>
          !((files.foldl (stepFile rd (flattenKeys (.obj i18n))) initScanState).usedKeys.contains
            k.path))),
        files.foldl (stepFile rd (flattenKeys (.obj i18n))) initScanState) := by
  unfold findUnusedKeys
  rw [runBatches_false, toBatches_flatten]
  rfl

/-- C9: with the signal never set, a file whose read fails is silently
skipped — the run still ends in a normal `Except.ok` outcome, the
accumulated usage sets are exactly those of the run over the readable files
alone (the unreadable files contribute no key matches), and every file,
readable or not, is counted as processed. -/
theorem c9_unreadable_files_skipped (provided : Option Nat)
    (readFile : String → Option String) (i18n : JFields) (files : List String) :
    (∃ ks, (findUnusedKeys false provided readFile i18n files).1 = Except.ok ks) ∧
      sameSets (findUnusedKeys false provided readFile i18n files).2
        (findUnusedKeys false provided readFile i18n
          (files.filter (fun f => (readFile f).isSome))).2 ∧
      (findUnusedKeys false provided readFile i18n files).2.processedFiles = files.length := by
  rw [findUnusedKeys_false, findUnusedKeys_false]
  refine ⟨⟨_, rfl⟩, ?_, ?_⟩
  · exact foldl_stepFile_filter readFile (flattenKeys (.obj i18n)) files initScanState
  · rw [foldl_stepFile_processedFiles]
    simp [initScanState]

/-- The translation tree `{"section":{"title":"Title","body":"Body"}}` whose
flattened key set contains the leaves `section.title` and `section.body`. -/
def sectionTree : JFields :=
  .cons "section" (.obj (.cons "title" (.str "Title") (.cons "body" (.str "Body") .nil))) .nil

/-- The flattened leaf `section.title`. -/
def keyTitle : FlattenedKey := ⟨"section.title", .str "Title", ["section", "title"]⟩

/-- The flattened leaf `section.body`. -/
def keyBody : FlattenedKey := ⟨"section.body", .str "Body", ["section", "body"]⟩

/-- Flattening the section tree yields exactly the two leaves. -/
theorem sectionTree_flatten : flattenKeys (.obj sectionTree) = [keyTitle, keyBody] := rfl

/-- A content whose template pattern fires for the prefix `section` makes the
dynamic scan of `section.title` succeed. -/
theorem dynSelf_title_of_template {content : String}
    (hdyn : testPat (templatePat "section".data) content.data = true) :
    dynSelf "section.title".data content.data = true := by
  unfold dynSelf
  rw [show dotPrefixes "section.title".data = ["section".data, "section.title".data] from by
    decide]
  simp [hdyn]

/-- Likewise for `section.body`. -/
theorem dynSelf_body_of_template {content : String}
    (hdyn : testPat (templatePat "section".data) content.data = true) :
    dynSelf "section.body".data content.data = true := by
  unfold dynSelf
  rw [show dotPrefixes "section.body".data = ["section".data, "section.body".data] from by
    decide]
  simp [hdyn]

/-- C3: if a scanned text contains a translation call whose template-literal
argument carries the prefix `section` followed by an interpolation hole (the
compiled dynamic pattern fires) and neither leaf is statically referenced,
then one resolver pass over that text classifies both `section.title` and
`section.body` as used with `isDynamic = true`, and the unused-key result is
empty. -/
theorem c3_dynamic_template_marks_both_keys (content : String)
    (hdyn : testPat (templatePat "section".data) content.data = true)
    (hs1 : staticFound "section.title".data content.data = false)
    (hs2 : staticFound "section.body".data content.data = false) :
    (findUnusedKeys false none (fun _ => some content) sectionTree ["main.ts"]).1 =
        Except.ok [] ∧
      "section.title" ∈
        (findUnusedKeys false none (fun _ => some content) sectionTree ["main.ts"]).2.usedKeys ∧
      "section.body" ∈
        (findUnusedKeys false none (fun _ => some content) sectionTree ["main.ts"]).2.usedKeys ∧
      "section.title" ∈
        (findUnusedKeys false none (fun _ => some content) sectionTree ["main.ts"]).2.dynamicKeys ∧
      "section.body" ∈
        (findUnusedKeys false none (fun _ => some content) sectionTree ["main.ts"]).2.dynamicKeys := by
  have hd1 : dynSelf keyTitle.path.data content.data = true := dynSelf_title_of_template hdyn
  have hd2 : dynSelf keyBody.path.data content.data = true := dynSelf_body_of_template hdyn
  have hs1' : staticFound keyTitle.path.data content.data = false := hs1
  have hs2' : staticFound keyBody.path.data content.data = false := hs2
  have hc1 : checkKey [keyTitle, keyBody] content "main.ts" initScanState keyTitle =
      ⟨["section.title"], ["section.title"], [("section.title", ["main.ts"])], 0, 1⟩ := by
    simp only [checkKey, hs1', hd1, Bool.false_eq_true, if_false, if_true]
    rfl
  have hc2 : checkKey [keyTitle, keyBody] content "main.ts"
      ⟨["section.title"], ["section.title"], [("section.title", ["main.ts"])], 0, 1⟩ keyBody =
      ⟨["section.title", "section.body"], ["section.title", "section.body"],
        [("section.title", ["main.ts"]), ("section.body", ["main.ts"])], 0, 2⟩ := by
    simp only [checkKey, hs2', hd2, Bool.false_eq_true, if_false, if_true]
    rfl
  have hstep : stepFile (fun _ => some content) [keyTitle, keyBody] initScanState "main.ts" =
      ⟨["section.title", "section.body"], ["section.title", "section.body"],
        [("section.title", ["main.ts"]), ("section.body", ["main.ts"])], 1, 2⟩ := by
    simp only [stepFile]
    rw [show [keyTitle, keyBody].filter
        (fun k => !(initScanState.usedKeys.contains k.path)) = [keyTitle, keyBody] from rfl]
    rw [List.foldl_cons, hc1, List.foldl_cons, hc2, List.foldl_nil]
  have hfold : List.foldl (stepFile (fun _ => some content) (flattenKeys (.obj sectionTree)))
      initScanState ["main.ts"] =
      ⟨["section.title", "section.body"], ["section.title", "section.body"],
        [("section.title", ["main.ts"]), ("section.body", ["main.ts"])], 1, 2⟩ := by
    rw [List.foldl_cons, List.foldl_nil, sectionTree_flatten, hstep]
  rw [findUnusedKeys_false, hfold]
  refine ⟨?_, ?_, ?_, ?_, ?_⟩
  · rw [sectionTree_flatten]
    rfl
  · simp
  · simp
  · simp
  · simp

/-- C3 witness: on the canonical content `t(\x60section.${key}\x60)` the
dynamic template pattern fires and no static pattern does, so both keys are
dynamically used and the unused result is empty. -/
theorem c3_dynamic_template_marks_both_keys_witness :
    (findUnusedKeys false none (fun _ => some "t(`section.${key}`)") sectionTree
        ["main.ts"]).1 = Except.ok [] ∧
      "section.title" ∈
        (findUnusedKeys false none (fun _ => some "t(`section.${key}`)") sectionTree
          ["main.ts"]).2.usedKeys ∧
      "section.body" ∈
        (findUnusedKeys false none (fun _ => some "t(`section.${key}`)") sectionTree
          ["main.ts"]).2.usedKeys ∧
      "section.title" ∈
        (findUnusedKeys false none (fun _ => some "t(`section.${key}`)") sectionTree
          ["main.ts"]).2.dynamicKeys ∧
      "section.body" ∈
        (findUnusedKeys false none (fun _ => some "t(`section.${key}`)") sectionTree
          ["main.ts"]).2.dynamicKeys :=
  c3_dynamic_template_marks_both_keys "t(`section.${key}`)" (by decide) (by decide) (by decide)

/-!
Model of the naming-case classifier `whatCase` (src/src/utils/progress.ts,
second document, lines 66-109).  Each entry of the `NamingCases` record is an
anchored regex of the shape `/^[class][class]*$/`; `Object.entries` preserves
the insertion order of the record literal, and `whatCase` returns the label
of the first matching pattern, falling back to `Unknown`.  The `Unknown`
pattern `/^.*$/` matches exactly the strings without line terminators, since
`.` excludes them and no `m`/`s` flag is set.
-/

/-- Class `[a-z]`. -/
def isLowerAZ (c : Char) : Bool := 'a' ≤ c && c ≤ 'z'

/-- Class `[A-Z]`. -/
def isUpperAZ (c : Char) : Bool := 'A' ≤ c && c ≤ 'Z'

/-- Class `[0-9]`. -/
def isDigit09 (c : Char) : Bool := '0' ≤ c && c ≤ '9'

/-- An anchored `/^[hd][tl]*$/` pattern: one mandatory head character and any
number of tail characters. -/
def headTailRe (hd tl : Char → Bool) (s : String) : Bool :=
  match s.data with
  | [] => false
  | c :: cs => hd c && cs.all tl

/-- `/^[a-z][a-zA-Z0-9]*$/`. -/
def camelCaseRe : String → Bool :=
  headTailRe isLowerAZ (fun c => isLowerAZ c || isUpperAZ c || isDigit09 c)

/-- `/^[A-Z][a-zA-Z0-9]*$/`. -/
def pascalCaseRe : String → Bool :=
  headTailRe isUpperAZ (fun c => isLowerAZ c || isUpperAZ c || isDigit09 c)

/-- `/^[a-z][a-z0-9_]*$/`. -/
def snakeCaseRe : String → Bool :=
  headTailRe isLowerAZ (fun c => isLowerAZ c || isDigit09 c || c = '_')

/-- `/^[A-Z][A-Z0-9]*$/`. -/
def upperCaseRe : String → Bool :=
  headTailRe isUpperAZ (fun c => isUpperAZ c || isDigit09 c)

/-- `/^[a-z][a-z0-9]*$/`. -/
def lowerCaseRe : String → Bool :=
  headTailRe isLowerAZ (fun c => isLowerAZ c || isDigit09 c)

/-- `/^[a-z][a-z0-9-]*$/`. -/
def kebabCaseRe : String → Bool :=
  headTailRe isLowerAZ (fun c => isLowerAZ c || isDigit09 c || c = '-')

/-- `/^[A-Z][a-z0-9 ]*$/`. -/
def startCaseRe : String → Bool :=
  headTailRe isUpperAZ (fun c => isLowerAZ c || isDigit09 c || c = ' ')

/-- `/^[a-z][a-z0-9.]*$/`. -/
def dotCaseRe : String → Bool :=
  headTailRe isLowerAZ (fun c => isLowerAZ c || isDigit09 c || c = '.')

/-- `/^[a-z][a-z0-9/]*$/`. -/
def pathCaseRe : String → Bool :=
  headTailRe isLowerAZ (fun c => isLowerAZ c || isDigit09 c || c = '/')

/-- `/^[a-z][a-z0-9 ]*$/`. -/
def spaceCaseRe : String → Bool :=
  headTailRe isLowerAZ (fun c => isLowerAZ c || isDigit09 c || c = ' ')

/-- `/^[a-z][a-z0-9]*$/` (textually identical to the LowerCase pattern). -/
def noCaseRe : String → Bool :=
  headTailRe isLowerAZ (fun c => isLowerAZ c || isDigit09 c)

/-- `/^[A-Z][A-Z0-9_]*$/`. -/
def constantCaseRe : String → Bool :=
  headTailRe isUpperAZ (fun c => isUpperAZ c || isDigit09 c || c = '_')

/-- `/^[A-Z][a-z0-9 ]*$/` (textually identical to the StartCase pattern). -/
def sentenceCaseRe : String → Bool :=
  headTailRe isUpperAZ (fun c => isLowerAZ c || isDigit09 c || c = ' ')

/-- `/^.*$/`: `.` matches everything except the line terminators `\n`, `\r`,
U+2028 and U+2029, and without the `m` flag `^`/`$` anchor at the ends of the
whole input, so the pattern accepts exactly the terminator-free strings. -/
def unknownRe (s : String) : Bool :=
  s.data.all (fun c => !(c = '\n' || c = '\r' || c = Char.ofNat 8232 || c = Char.ofNat 8233))

/-- The `NamingCase` enum (progress.ts lines 66-81). -/
inductive NamingCase : Type where
  | CamelCase | PascalCase | SnakeCase | UpperCase | LowerCase | KebabCase | StartCase
  | DotCase | PathCase | SpaceCase | NoCase | ConstantCase | SentenceCase | Unknown
deriving Repr, DecidableEq

/-- `Object.entries(NamingCases)` (lines 85-105), in record-literal insertion
order. -/
def NamingCasesArray : List (NamingCase × (String → Bool)) :=
  [(.CamelCase, camelCaseRe), (.PascalCase, pascalCaseRe), (.SnakeCase, snakeCaseRe),
   (.UpperCase, upperCaseRe), (.LowerCase, lowerCaseRe), (.KebabCase, kebabCaseRe),
   (.StartCase, startCaseRe), (.DotCase, dotCaseRe), (.PathCase, pathCaseRe),
   (.SpaceCase, spaceCaseRe), (.NoCase, noCaseRe), (.ConstantCase, constantCaseRe),
   (.SentenceCase, sentenceCaseRe), (.Unknown, unknownRe)]

/-- Mirrors `whatCase` (line 109): the label of the first matching pattern,
`Unknown` when none matches (the `|| NamingCase.Unknown` fallback; a found
label is a nonempty string and never falsy). -/
def whatCase (s : String) : NamingCase :=
  match NamingCasesArray.find? (fun p => p.2 s) with
  | some p => p.1
  | none => .Unknown

/-- Any UpperCase match is a PascalCase match. -/
theorem upperCaseRe_implies_pascal {s : String} (h : upperCaseRe s = true) :
    pascalCaseRe s = true := by
  unfold upperCaseRe at h
  unfold pascalCaseRe
  unfold headTailRe at h ⊢
  cases hd : s.data with
  | nil =>
    rw [hd] at h
    simp at h
  | cons c cs =>
    rw [hd] at h
    simp only [Bool.and_eq_true] at h ⊢
    refine ⟨h.1, ?_⟩
    have h2 := h.2
    rw [List.all_eq_true] at h2 ⊢
    intro x hx
    have hx2 := h2 x hx
    cases hu : isUpperAZ x <;> cases hg : isDigit09 x <;> simp_all

/-- Any LowerCase match is a CamelCase match. -/
theorem lowerCaseRe_implies_camel {s : String} (h : lowerCaseRe s = true) :
    camelCaseRe s = true := by
  unfold lowerCaseRe at h
  unfold camelCaseRe
  unfold headTailRe at h ⊢
  cases hd : s.data with
  | nil =>
    rw [hd] at h
    simp at h
  | cons c cs =>
    rw [hd] at h
    simp only [Bool.and_eq_true] at h ⊢
    refine ⟨h.1, ?_⟩
    have h2 := h.2
    rw [List.all_eq_true] at h2 ⊢
    intro x hx
    have hx2 := h2 x hx
    cases hl : isLowerAZ x <;> cases hg : isDigit09 x <;> simp_all

/-- The NoCase pattern is the LowerCase pattern, so any NoCase match is a
CamelCase match. -/
theorem noCaseRe_implies_camel {s : String} (h : noCaseRe s = true) :
    camelCaseRe s = true :=
  lowerCaseRe_implies_camel h

/-- The SentenceCase pattern is textually the StartCase pattern. -/
theorem sentenceCaseRe_implies_start {s : String} (h : sentenceCaseRe s = true) :
    startCaseRe s = true := h

/-- C10: `whatCase` is total with first-match semantics; the empty string is
classified `Unknown` (every other pattern needs at least one character), and
the labels `UpperCase`, `LowerCase`, `NoCase` and `SentenceCase` are dead:
every string they would match is claimed earlier by `PascalCase`,
`CamelCase`, `CamelCase` and `StartCase` respectively. -/
theorem c10_whatCase_dead_labels (s : String) :
    (whatCase s ≠ .UpperCase ∧ whatCase s ≠ .LowerCase ∧ whatCase s ≠ .NoCase ∧
      whatCase s ≠ .SentenceCase) ∧ whatCase "" = .Unknown := by
  refine ⟨?_, by decide⟩
  by_cases h1 : camelCaseRe s = true
  · simp [whatCase, NamingCasesArray, List.find?_cons, h1]
  by_cases h2 : pascalCaseRe s = true
  · simp [whatCase, NamingCasesArray, List.find?_cons, h1, h2]
  by_cases h3 : snakeCaseRe s = true
  · simp [whatCase, NamingCasesArray, List.find?_cons, h1, h2, h3]
  by_cases h4 : upperCaseRe s = true
  · exact absurd (upperCaseRe_implies_pascal h4) h2
  by_cases h5 : lowerCaseRe s = true
  · exact absurd (lowerCaseRe_implies_camel h5) h1
  by_cases h6 : kebabCaseRe s = true
  · simp [whatCase, NamingCasesArray, List.find?_cons, h1, h2, h3, h4, h5, h6]
  by_cases h7 : startCaseRe s = true
  · simp [whatCase, NamingCasesArray, List.find?_cons, h1, h2, h3, h4, h5, h6, h7]
  by_cases h8 : dotCaseRe s = true
  · simp [whatCase, NamingCasesArray, List.find?_cons, h1, h2, h3, h4, h5, h6, h7, h8]
  by_cases h9 : pathCaseRe s = true
  · simp [whatCase, NamingCasesArray, List.find?_cons, h1, h2, h3, h4, h5, h6, h7, h8, h9]
  by_cases h10 : spaceCaseRe s = true
  · simp [whatCase, NamingCasesArray, List.find?_cons, h1, h2, h3, h4, h5, h6, h7, h8, h9, h10]
  by_cases h11 : noCaseRe s = true
  · exact absurd (noCaseRe_implies_camel h11) h1
  by_cases h12 : constantCaseRe s = true
  · simp [whatCase, NamingCasesArray, List.find?_cons, h1, h2, h3, h4, h5, h6, h7, h8, h9, h10,
      h11, h12]
  by_cases h13 : sentenceCaseRe s = true
  · exact absurd (sentenceCaseRe_implies_start h13) h7
  by_cases h14 : unknownRe s = true
  · simp [whatCase, NamingCasesArray, List.find?_cons, h1, h2, h3, h4, h5, h6, h7, h8, h9, h10,
      h11, h12, h13, h14]
  · simp [whatCase, NamingCasesArray, List.find?_cons, h1, h2, h3, h4, h5, h6, h7, h8, h9, h10,
      h11, h12, h13, h14]
